import Mathlib

/-!
Shallow embedding of `src/utils/passwordGenerator.ts` from the
Random-Password-Generator repository, together with proofs of the spec's
claims about it.

Modelling conventions:
* TypeScript strings are modelled as Lean `String`s; character-level work
  happens on `String.toList` (all characters involved are ASCII, so JS
  UTF-16 length coincides with character count).
* `Math.floor(Math.random() * b)` is modelled by a draw stream
  `g : Nat → Nat → Nat`, where `g t b` is the value of the `t`-th call to
  the random source when the requested bound is `b`.  Draws are consumed
  sequentially: the `k` guaranteed-class picks use draw indices
  `0 .. k-1`, the fill loop uses `k .. L-1`, and the Fisher–Yates shuffle
  uses indices `L, L+1, ...`.  The predicate `InRange g` states that every
  draw is in range, which is exactly what `Math.random` guarantees.
* The thrown `Error` of `generatePassword` is modelled by `GenError`,
  carrying the interpolated message string exactly as the source builds it.
-/

inductive PasswordStrength
  | low
  | medium
  | high
deriving DecidableEq

structure PasswordConfig where
  length : Nat
  strength : PasswordStrength

def lowercaseSet : String := "abcdefghijklmnopqrstuvwxyz"

def uppercaseSet : String := "ABCDEFGHIJKLMNOPQRSTUVWXYZ"

def numbersSet : String := "0123456789"

def basicSymbolsSet : String := "!@#$%^&*"

def extendedSymbolsSet : String := "!@#$%^&*()_+-=[]\x7b\x7d|;:,.<>?"

/-- The `CHARACTER_SETS` table: for each strength level, the object mapping
class names to character-set strings, modelled as an ordered association
list so that presence or absence of a key is observable. -/
def CHARACTER_SETS : PasswordStrength → List (String × String)
  | .low =>
    [("lowercase", lowercaseSet), ("uppercase", uppercaseSet),
     ("numbers", numbersSet)]
  | .medium =>
    [("lowercase", lowercaseSet), ("uppercase", uppercaseSet),
     ("numbers", numbersSet), ("symbols", basicSymbolsSet)]
  | .high =>
    [("lowercase", lowercaseSet), ("uppercase", uppercaseSet),
     ("numbers", numbersSet), ("symbols", extendedSymbolsSet)]

def MIN_LENGTHS : PasswordStrength → Nat
  | .low => 6
  | .medium => 8
  | .high => 12

def strengthName : PasswordStrength → String
  | .low => "low"
  | .medium => "medium"
  | .high => "high"

/-- The message of the `Error` thrown on an invalid length, exactly as the
template literal in the source interpolates it. -/
def invalidLengthMessage (strength : PasswordStrength) : String :=
  "Password length must be at least " ++ toString (MIN_LENGTHS strength) ++
    " characters for " ++ strengthName strength ++ " strength"

structure GenError where
  message : String
deriving DecidableEq

/-- `Object.values(CHARACTER_SETS[strength])` as character lists. -/
def requiredSets (strength : PasswordStrength) : List (List Char) :=
  (CHARACTER_SETS strength).map fun p => p.2.toList

/-- `Object.values(charSets).join('')`. -/
def allChars (strength : PasswordStrength) : List Char :=
  (requiredSets strength).flatten

/-- A draw stream is in range when every draw with a positive bound is
below the bound (the guarantee of `Math.floor(Math.random() * b)`). -/
def InRange (g : Nat → Nat → Nat) : Prop :=
  ∀ t b, 0 < b → g t b < b

/-- The `requiredSets.forEach` loop: one uniformly drawn character per
character class, in table order; the `i`-th class consumes draw `i`. -/
def requiredPart (g : Nat → Nat → Nat) (strength : PasswordStrength) :
    List Char :=
  ((requiredSets strength).enum).map fun p =>
    p.2.getD (g p.1 p.2.length) ' '

/-- The fill loop: `count` further characters drawn from the union
alphabet, consuming draws `start, start+1, ...`. -/
def fillPart (g : Nat → Nat → Nat) (strength : PasswordStrength)
    (start count : Nat) : List Char :=
  (List.range count).map fun i =>
    (allChars strength).getD (g (start + i) (allChars strength).length) ' '

/-- `[arr[i], arr[j]] = [arr[j], arr[i]]` on a list. -/
def swapList (l : List Char) (i j : Nat) : List Char :=
  (l.set i (l.getD j ' ')).set j (l.getD i ' ')

/-- The Fisher–Yates loop of `shuffleString`: the first argument below the
draw counter is the loop variable `i` (the position being fixed); the
source runs `i` from `arr.length - 1` down to `1`, drawing `j` with bound
`i + 1`. -/
def fyLoop (g : Nat → Nat → Nat) : Nat → Nat → List Char → List Char
  | _, 0, arr => arr
  | t, i + 1, arr => fyLoop g (t + 1) i (swapList arr (i + 1) (g t (i + 2)))

/-- `shuffleString`, on the character list, with `t` the index of the first
draw it consumes. -/
def shuffleString (g : Nat → Nat → Nat) (t : Nat) (str : List Char) :
    List Char :=
  fyLoop g t (str.length - 1) str

/-- `generatePassword`.  The thrown `Error` becomes the `Except.error`
branch; otherwise: one guaranteed character per class, the fill loop, then
the shuffle of the assembled sequence. -/
def generatePassword (g : Nat → Nat → Nat) (config : PasswordConfig) :
    Except GenError String :=
  if config.length < MIN_LENGTHS config.strength then
    .error ⟨invalidLengthMessage config.strength⟩
  else
    let password := requiredPart g config.strength
    let remainingLength := config.length - password.length
    let assembled :=
      password ++ fillPart g config.strength password.length remainingLength
    .ok (String.mk (shuffleString g config.length assembled))

/-- The character class of the regex `/[a-z]/`. -/
def isLowercaseChar (c : Char) : Bool :=
  decide ('a' ≤ c) && decide (c ≤ 'z')

/-- The character class of the regex `/[A-Z]/`. -/
def isUppercaseChar (c : Char) : Bool :=
  decide ('A' ≤ c) && decide (c ≤ 'Z')

/-- The character class of the regex `/[0-9]/`. -/
def isNumberChar (c : Char) : Bool :=
  decide ('0' ≤ c) && decide (c ≤ '9')

/-- The character class of the symbol regex
`/[!@#$%^&*()_+\-=\[\]{}|;:,.<>?]/` in `validatePasswordStrength`; its
characters are exactly those of the extended (high) symbol set. -/
def isSymbolChar (c : Char) : Bool :=
  extendedSymbolsSet.toList.contains c

structure ValidationDetails where
  hasLowercase : Bool
  hasUppercase : Bool
  hasNumbers : Bool
  hasSymbols : Bool
  meetsLength : Bool
  strength : PasswordStrength
deriving DecidableEq

structure ValidationResult where
  isValid : Bool
  details : ValidationDetails
deriving DecidableEq

/-- `validatePasswordStrength`. -/
def validatePasswordStrength (password : String)
    (strength : PasswordStrength) : ValidationResult :=
  let minLength := MIN_LENGTHS strength
  let hasLowercase := password.toList.any isLowercaseChar
  let hasUppercase := password.toList.any isUppercaseChar
  let hasNumbers := password.toList.any isNumberChar
  let hasSymbols :=
    decide (strength ≠ .low) && password.toList.any isSymbolChar
  let meetsLength := decide (minLength ≤ password.length)
  let isValid := hasLowercase && hasUppercase && hasNumbers &&
    (decide (strength = .low) || hasSymbols) && meetsLength
  { isValid := isValid
    details :=
      { hasLowercase := hasLowercase
        hasUppercase := hasUppercase
        hasNumbers := hasNumbers
        hasSymbols := hasSymbols
        meetsLength := meetsLength
        strength := strength } }

/-- `getMinLengthForStrength`. -/
def getMinLengthForStrength (strength : PasswordStrength) : Nat :=
  MIN_LENGTHS strength

/-- `getCharacterSetsForStrength`. -/
def getCharacterSetsForStrength (strength : PasswordStrength) :
    List (String × String) :=
  CHARACTER_SETS strength

/-- The all-zero draw stream, used to instantiate theorems at concrete
inputs. -/
def zeroDraws : Nat → Nat → Nat := fun _ _ => 0

/-- A second concrete draw stream. -/
def oneDraws : Nat → Nat → Nat := fun _ b => b - 1

theorem zeroDraws_inRange : InRange zeroDraws := fun _ _ h => h

theorem oneDraws_inRange : InRange oneDraws := by
  intro t b h
  simp only [oneDraws]
  omega

/-! ### Helper lemmas -/

theorem getD_mem_of_lt (l : List Char) (n : Nat) (h : n < l.length) :
    l.getD n ' ' ∈ l := by
  rw [List.getD_eq_getElem l ' ' h]
  exact List.getElem_mem h

theorem length_swapList (l : List Char) (i j : Nat) :
    (swapList l i j).length = l.length := by
  simp [swapList]

theorem getD_cons_set_perm :
    ∀ (t : List Char) (k : Nat) (a : Char), k < t.length →
      (t.getD k ' ' :: t.set k a).Perm (a :: t) := by
  intro t
  induction t with
  | nil =>
    intro k a h
    simp at h
  | cons y ys ih =>
    intro k a h
    cases k with
    | zero =>
      simpa using List.Perm.swap a y ys
    | succ m =>
      have hm : m < ys.length := Nat.lt_of_succ_lt_succ (by simpa using h)
      have h1 : (ys.getD m ' ' :: y :: ys.set m a).Perm
          (y :: ys.getD m ' ' :: ys.set m a) := List.Perm.swap y _ _
      have h2 : (y :: ys.getD m ' ' :: ys.set m a).Perm (y :: a :: ys) :=
        (ih m a hm).cons y
      have h3 : (y :: a :: ys).Perm (a :: y :: ys) := List.Perm.swap a y ys
      simpa using (h1.trans h2).trans h3

theorem swapList_perm :
    ∀ (l : List Char) (i j : Nat), i < l.length → j < l.length →
      (swapList l i j).Perm l := by
  intro l
  induction l with
  | nil =>
    intro i j hi _
    simp at hi
  | cons x xs ih =>
    intro i j hi hj
    match i, j with
    | 0, 0 =>
      simp [swapList]
    | 0, m + 1 =>
      have hm : m < xs.length := Nat.lt_of_succ_lt_succ (by simpa using hj)
      have e : swapList (x :: xs) 0 (m + 1) = xs.getD m ' ' :: xs.set m x := by
        simp [swapList]
      rw [e]
      exact getD_cons_set_perm xs m x hm
    | n + 1, 0 =>
      have hn : n < xs.length := Nat.lt_of_succ_lt_succ (by simpa using hi)
      have e : swapList (x :: xs) (n + 1) 0 = xs.getD n ' ' :: xs.set n x := by
        simp [swapList]
      rw [e]
      exact getD_cons_set_perm xs n x hn
    | n + 1, m + 1 =>
      have hn : n < xs.length := Nat.lt_of_succ_lt_succ (by simpa using hi)
      have hm : m < xs.length := Nat.lt_of_succ_lt_succ (by simpa using hj)
      have e : swapList (x :: xs) (n + 1) (m + 1) = x :: swapList xs n m := by
        simp [swapList]
      rw [e]
      exact (ih n m hn hm).cons x

theorem fyLoop_perm (g : Nat → Nat → Nat) (hg : InRange g) :
    ∀ (i t : Nat) (arr : List Char), i < arr.length →
      (fyLoop g t i arr).Perm arr := by
  intro i
  induction i with
  | zero =>
    intro t arr _
    simp [fyLoop]
  | succ i ih =>
    intro t arr h
    have hj : g t (i + 2) < i + 2 := hg t (i + 2) (by omega)
    have hjlen : g t (i + 2) < arr.length := by omega
    have hswap := swapList_perm arr (i + 1) (g t (i + 2)) h hjlen
    have hlen := length_swapList arr (i + 1) (g t (i + 2))
    have hrec := ih (t + 1) (swapList arr (i + 1) (g t (i + 2)))
      (by rw [hlen]; omega)
    exact hrec.trans hswap

theorem shuffleString_perm (g : Nat → Nat → Nat) (hg : InRange g) (t : Nat)
    (str : List Char) : (shuffleString g t str).Perm str := by
  rcases str with _ | ⟨a, l⟩
  · simp [shuffleString, fyLoop]
  · exact fyLoop_perm g hg _ t _ (by simp)

theorem generatePassword_ok (g : Nat → Nat → Nat) (L : Nat)
    (s : PasswordStrength) (h : MIN_LENGTHS s ≤ L) :
    generatePassword g ⟨L, s⟩ =
      .ok (String.mk (shuffleString g L
        (requiredPart g s ++
          fillPart g s (requiredPart g s).length
            (L - (requiredPart g s).length)))) := by
  simp [generatePassword, Nat.not_lt.mpr h]

theorem gen_ok_toList (g : Nat → Nat → Nat) (L : Nat) (s : PasswordStrength)
    (h : MIN_LENGTHS s ≤ L) (p : String)
    (hp : generatePassword g ⟨L, s⟩ = .ok p) :
    p.toList = shuffleString g L
      (requiredPart g s ++
        fillPart g s (requiredPart g s).length
          (L - (requiredPart g s).length)) := by
  rw [generatePassword_ok g L s h] at hp
  have := Except.ok.inj hp
  subst this
  rfl

theorem gen_perm (g : Nat → Nat → Nat) (hg : InRange g) (L : Nat)
    (s : PasswordStrength) (h : MIN_LENGTHS s ≤ L) (p : String)
    (hp : generatePassword g ⟨L, s⟩ = .ok p) :
    p.toList.Perm
      (requiredPart g s ++
        fillPart g s (requiredPart g s).length
          (L - (requiredPart g s).length)) := by
  rw [gen_ok_toList g L s h p hp]
  exact shuffleString_perm g hg L _

theorem requiredPart_length (g : Nat → Nat → Nat) (s : PasswordStrength) :
    (requiredPart g s).length = (requiredSets s).length := by
  simp [requiredPart]

theorem fillPart_length (g : Nat → Nat → Nat) (s : PasswordStrength)
    (start count : Nat) : (fillPart g s start count).length = count := by
  simp [fillPart]

theorem requiredSets_length_le (s : PasswordStrength) :
    (requiredSets s).length ≤ MIN_LENGTHS s := by
  cases s <;> decide

theorem assembled_length (g : Nat → Nat → Nat) (L : Nat)
    (s : PasswordStrength) (h : MIN_LENGTHS s ≤ L) :
    (requiredPart g s ++
      fillPart g s (requiredPart g s).length
        (L - (requiredPart g s).length)).length = L := by
  have h1 := requiredPart_length g s
  have h2 := requiredSets_length_le s
  simp [fillPart_length, h1]
  omega

theorem allChars_pos (s : PasswordStrength) : 0 < (allChars s).length := by
  cases s <;> decide

theorem mem_fillPart (g : Nat → Nat → Nat) (hg : InRange g)
    (s : PasswordStrength) (start count : Nat) :
    ∀ c ∈ fillPart g s start count, c ∈ allChars s := by
  intro c hc
  rw [fillPart, List.mem_map] at hc
  obtain ⟨i, _, rfl⟩ := hc
  exact getD_mem_of_lt _ _ (hg _ _ (allChars_pos s))

theorem mem_requiredSets_pos (s : PasswordStrength) (cs : List Char)
    (h : cs ∈ requiredSets s) : 0 < cs.length := by
  cases s with
  | low =>
    simp [requiredSets, CHARACTER_SETS] at h
    rcases h with rfl | rfl | rfl <;> decide
  | medium =>
    simp [requiredSets, CHARACTER_SETS] at h
    rcases h with rfl | rfl | rfl | rfl <;> decide
  | high =>
    simp [requiredSets, CHARACTER_SETS] at h
    rcases h with rfl | rfl | rfl | rfl <;> decide

theorem snd_mem_of_mem_enumFrom {α : Type} :
    ∀ (l : List α) (n : Nat) (p : Nat × α), p ∈ List.enumFrom n l → p.2 ∈ l := by
  intro l
  induction l with
  | nil =>
    intro n p h
    simp [List.enumFrom] at h
  | cons x xs ih =>
    intro n p h
    rcases List.mem_cons.mp h with rfl | h'
    · simp
    · exact List.mem_cons_of_mem _ (ih (n + 1) p h')

theorem pick_enumFrom_mem (g : Nat → Nat → Nat) (hg : InRange g) :
    ∀ (sets : List (List Char)) (t0 : Nat) (cs : List Char),
      cs ∈ sets → 0 < cs.length →
      ∃ c ∈ (List.enumFrom t0 sets).map
          (fun p => p.2.getD (g p.1 p.2.length) ' '), c ∈ cs := by
  intro sets
  induction sets with
  | nil =>
    intro t0 cs h
    simp at h
  | cons x xs ih =>
    intro t0 cs hmem hpos
    rcases List.mem_cons.mp hmem with rfl | hmem'
    · refine ⟨cs.getD (g t0 cs.length) ' ', ?_, ?_⟩
      · exact List.mem_cons_self _ _
      · exact getD_mem_of_lt _ _ (hg t0 _ hpos)
    · obtain ⟨c, hc1, hc2⟩ := ih (t0 + 1) cs hmem' hpos
      exact ⟨c, List.mem_cons_of_mem _ hc1, hc2⟩

theorem mem_requiredPart (g : Nat → Nat → Nat) (hg : InRange g)
    (s : PasswordStrength) (cs : List Char) (hmem : cs ∈ requiredSets s) :
    ∃ c ∈ requiredPart g s, c ∈ cs :=
  pick_enumFrom_mem g hg (requiredSets s) 0 cs hmem
    (mem_requiredSets_pos s cs hmem)

theorem requiredPart_subset_all (g : Nat → Nat → Nat) (hg : InRange g)
    (s : PasswordStrength) : ∀ c ∈ requiredPart g s, c ∈ allChars s := by
  intro c hc
  rw [requiredPart, List.mem_map] at hc
  obtain ⟨⟨i, cs⟩, hmem, rfl⟩ := hc
  have hcs : cs ∈ requiredSets s :=
    snd_mem_of_mem_enumFrom (requiredSets s) 0 (i, cs) hmem
  have hpos := mem_requiredSets_pos s cs hcs
  exact List.mem_flatten.mpr ⟨cs, hcs, getD_mem_of_lt _ _ (hg i _ hpos)⟩

theorem lowercase_mem_requiredSets (s : PasswordStrength) :
    lowercaseSet.toList ∈ requiredSets s := by
  cases s <;> simp [requiredSets, CHARACTER_SETS]

theorem uppercase_mem_requiredSets (s : PasswordStrength) :
    uppercaseSet.toList ∈ requiredSets s := by
  cases s <;> simp [requiredSets, CHARACTER_SETS]

theorem numbers_mem_requiredSets (s : PasswordStrength) :
    numbersSet.toList ∈ requiredSets s := by
  cases s <;> simp [requiredSets, CHARACTER_SETS]

theorem lowercase_chars_prop :
    ∀ c ∈ lowercaseSet.toList, isLowercaseChar c = true := by decide

theorem uppercase_chars_prop :
    ∀ c ∈ uppercaseSet.toList, isUppercaseChar c = true := by decide

theorem numbers_chars_prop :
    ∀ c ∈ numbersSet.toList, isNumberChar c = true := by decide

theorem basic_symbols_prop :
    ∀ c ∈ basicSymbolsSet.toList, isSymbolChar c = true := by decide

theorem extended_symbols_prop :
    ∀ c ∈ extendedSymbolsSet.toList, isSymbolChar c = true := by decide

theorem gen_length_core (g : Nat → Nat → Nat) (hg : InRange g) (L : Nat)
    (s : PasswordStrength) (h : MIN_LENGTHS s ≤ L) (p : String)
    (hp : generatePassword g ⟨L, s⟩ = .ok p) : p.length = L := by
  have e1 : p.toList.length = _ := (gen_perm g hg L s h p hp).length_eq
  rw [assembled_length g L s h] at e1
  exact e1

/-! ### Claim theorems -/

/-- C1 (counterexample): the claim says the `hasSymbols` flag is
level-independent and that a Low-strength validation of a password
containing an extended symbol reports `hasSymbols = true`.  The code
guards the symbol test with `strength !== 'low'`: validating `"["` at Low
yields `hasSymbols = false` although `[` is in the extended symbol set. -/
theorem validate_low_symbol_counterexample :
    '[' ∈ extendedSymbolsSet.toList ∧
    (validatePasswordStrength "[" .low).details.hasSymbols = false := by
  decide

/-- C1 (amended): the `hasSymbols` flag of `validate(P, S)` is true iff
`S ≠ Low` and `P` contains at least one character of the extended symbol
set; for `S = Low` the flag is always false, whatever `P` contains. -/
theorem validate_hasSymbols_iff (P : String) (S : PasswordStrength) :
    (validatePasswordStrength P S).details.hasSymbols = true ↔
      (S ≠ .low ∧ ∃ c ∈ P.toList, c ∈ extendedSymbolsSet.toList) := by
  simp [validatePasswordStrength, isSymbolChar, List.any_eq_true]

/-- C2 (counterexample): the claim says the `InvalidLength` error carries
the offending requested length.  The thrown `Error` message interpolates
only the minimum and the strength: the calls `generate(3, low)` and
`generate(4, low)` produce identical errors, so the offending length is
not recoverable from the error. -/
theorem invalid_length_error_counterexample :
    generatePassword zeroDraws ⟨3, .low⟩ = generatePassword zeroDraws ⟨4, .low⟩ ∧
    generatePassword zeroDraws ⟨3, .low⟩ =
      .error ⟨"Password length must be at least 6 characters for low strength"⟩ :=
  ⟨rfl, rfl⟩

/-- C2 (amended): when `generate(L, S)` fails because `L` is below the
minimum for `S`, the error carries the strength level and the required
minimum (interpolated into its message); the offending length `L` is not
part of the error — the error value is a function of `S` alone. -/
theorem invalid_length_error_content (g : Nat → Nat → Nat) (L : Nat)
    (S : PasswordStrength) (h : L < MIN_LENGTHS S) :
    generatePassword g ⟨L, S⟩ =
      .error ⟨"Password length must be at least " ++
        toString (MIN_LENGTHS S) ++ " characters for " ++
        strengthName S ++ " strength"⟩ := by
  simp [generatePassword, h, invalidLengthMessage]

/-- Witness for `invalid_length_error_content` at `L = 3`, `S = low`. -/
theorem invalid_length_error_content_witness :
    generatePassword zeroDraws ⟨3, .low⟩ =
      .error ⟨"Password length must be at least " ++
        toString (MIN_LENGTHS .low) ++ " characters for " ++
        strengthName .low ++ " strength"⟩ :=
  invalid_length_error_content zeroDraws 3 .low (by decide)

/-- C3: for every strength `S`, every `L ≥ minimumLength(S)` and every
in-range draw stream, the generated password self-validates:
`validate(generate(L, S), S).valid = true`. -/
theorem generated_password_self_validates (g : Nat → Nat → Nat)
    (hg : InRange g) (s : PasswordStrength) (L : Nat)
    (h : MIN_LENGTHS s ≤ L) (p : String)
    (hp : generatePassword g ⟨L, s⟩ = .ok p) :
    (validatePasswordStrength p s).isValid = true := by
  have hperm := gen_perm g hg L s h p hp
  have mem_p : ∀ cs ∈ requiredSets s, ∃ c ∈ p.toList, c ∈ cs := by
    intro cs hcs
    obtain ⟨c, hc1, hc2⟩ := mem_requiredPart g hg s cs hcs
    exact ⟨c, hperm.mem_iff.mpr (List.mem_append_left _ hc1), hc2⟩
  have hlow : ∃ x ∈ p.toList, isLowercaseChar x = true := by
    obtain ⟨c, hc1, hc2⟩ := mem_p _ (lowercase_mem_requiredSets s)
    exact ⟨c, hc1, lowercase_chars_prop c hc2⟩
  have hup : ∃ x ∈ p.toList, isUppercaseChar x = true := by
    obtain ⟨c, hc1, hc2⟩ := mem_p _ (uppercase_mem_requiredSets s)
    exact ⟨c, hc1, uppercase_chars_prop c hc2⟩
  have hnum : ∃ x ∈ p.toList, isNumberChar x = true := by
    obtain ⟨c, hc1, hc2⟩ := mem_p _ (numbers_mem_requiredSets s)
    exact ⟨c, hc1, numbers_chars_prop c hc2⟩
  have hplen : p.length = L := gen_length_core g hg L s h p hp
  have hsym : s = .low ∨
      (¬s = .low ∧ ∃ x ∈ p.toList, isSymbolChar x = true) := by
    cases s with
    | low => exact Or.inl rfl
    | medium =>
      have hmem : basicSymbolsSet.toList ∈ requiredSets .medium := by
        simp [requiredSets, CHARACTER_SETS]
      obtain ⟨c, hc1, hc2⟩ := mem_p _ hmem
      exact Or.inr ⟨by decide, ⟨c, hc1, basic_symbols_prop c hc2⟩⟩
    | high =>
      have hmem : extendedSymbolsSet.toList ∈ requiredSets .high := by
        simp [requiredSets, CHARACTER_SETS]
      obtain ⟨c, hc1, hc2⟩ := mem_p _ hmem
      exact Or.inr ⟨by decide, ⟨c, hc1, extended_symbols_prop c hc2⟩⟩
  simp [validatePasswordStrength, hplen, h]
  exact ⟨⟨⟨hlow, hup⟩, hnum⟩, hsym⟩

/-- Witness for `generated_password_self_validates` with the all-zero draw
stream, `S = low`, `L = 6`. -/
theorem generated_password_self_validates_witness :
    (validatePasswordStrength "A0aaaa" .low).isValid = true :=
  generated_password_self_validates zeroDraws zeroDraws_inRange .low 6
    (by decide) "A0aaaa" rfl

/-- C4: for every strength `S`, every `L ≥ minimumLength(S)` and every
in-range draw stream, `generate(L, S)` returns a string of length exactly
`L`. -/
theorem generated_password_length (g : Nat → Nat → Nat) (hg : InRange g)
    (s : PasswordStrength) (L : Nat) (h : MIN_LENGTHS s ≤ L) (p : String)
    (hp : generatePassword g ⟨L, s⟩ = .ok p) : p.length = L :=
  gen_length_core g hg L s h p hp

/-- Witness for `generated_password_length` with the all-zero draw stream,
`S = high`, `L = 12`. -/
theorem generated_password_length_witness : ("A0!aaaaaaaaa" : String).length = 12 :=
  generated_password_length zeroDraws zeroDraws_inRange .high 12 (by decide)
    "A0!aaaaaaaaa" rfl

/-- C5: for every strength `S`, every `L ≥ minimumLength(S)` and every
in-range draw stream, the generated password contains at least one
character from each mandatory character class of `S`'s policy (the entries
of `CHARACTER_SETS[S]`), the coverage surviving the final shuffle. -/
theorem generated_password_coverage (g : Nat → Nat → Nat) (hg : InRange g)
    (s : PasswordStrength) (L : Nat) (h : MIN_LENGTHS s ≤ L) (p : String)
    (hp : generatePassword g ⟨L, s⟩ = .ok p) :
    ∀ cs ∈ requiredSets s, ∃ c, c ∈ p.toList ∧ c ∈ cs := by
  intro cs hcs
  have hperm := gen_perm g hg L s h p hp
  obtain ⟨c, hc1, hc2⟩ := mem_requiredPart g hg s cs hcs
  exact ⟨c, hperm.mem_iff.mpr (List.mem_append_left _ hc1), hc2⟩

/-- Witness for `generated_password_coverage` with the all-zero draw
stream, `S = medium`, `L = 8`, instantiated at the basic symbol class. -/
theorem generated_password_coverage_witness :
    ∃ c, c ∈ ("A0!aaaaa" : String).toList ∧ c ∈ basicSymbolsSet.toList :=
  generated_password_coverage zeroDraws zeroDraws_inRange .medium 8
    (by decide) "A0!aaaaa" rfl basicSymbolsSet.toList (by decide)

/-- C6: `generate(L, S)` fails iff `L < minimumLength(S)`; when it fails
the error is the `InvalidLength` error, and the failure is decided before
any character is produced: the result of a failing call does not depend on
the draw stream at all, and no partial string accompanies the error. -/
theorem generate_fails_iff_too_short (g g' : Nat → Nat → Nat) (L : Nat)
    (s : PasswordStrength) :
    ((∃ e, generatePassword g ⟨L, s⟩ = .error e) ↔ L < MIN_LENGTHS s) ∧
    (L < MIN_LENGTHS s →
      generatePassword g ⟨L, s⟩ = .error ⟨invalidLengthMessage s⟩ ∧
      generatePassword g ⟨L, s⟩ = generatePassword g' ⟨L, s⟩) := by
  constructor
  · constructor
    · rintro ⟨e, he⟩
      by_contra hnot
      simp [generatePassword, hnot] at he
    · intro hlt
      exact ⟨⟨invalidLengthMessage s⟩, by simp [generatePassword, hlt]⟩
  · intro hlt
    constructor <;> simp [generatePassword, hlt]

/-- Witness for `generate_fails_iff_too_short` at `L = 3`, `S = low`, with
two different draw streams. -/
theorem generate_fails_iff_too_short_witness :
    (∃ e, generatePassword zeroDraws ⟨3, .low⟩ = .error e) ∧
    generatePassword zeroDraws ⟨3, .low⟩ = generatePassword oneDraws ⟨3, .low⟩ := by
  have h := generate_fails_iff_too_short zeroDraws oneDraws 3 .low
  exact ⟨h.1.mpr (by decide), (h.2 (by decide)).2⟩

/-- C7: for every strength `S`, the class mapping returned by
`getCharacterSetsForStrength` has a `"symbols"` key iff `S ≠ Low`; Low
yields exactly the three classes lowercase, uppercase, numbers (the
symbols key absent), while Medium and High yield four classes. -/
theorem characterSets_symbols_key (S : PasswordStrength) :
    (((getCharacterSetsForStrength S).lookup "symbols").isSome ↔ S ≠ .low) ∧
    (getCharacterSetsForStrength .low).map Prod.fst =
      ["lowercase", "uppercase", "numbers"] ∧
    (getCharacterSetsForStrength S).length =
      (if S = .low then 3 else 4) := by
  cases S <;> refine ⟨by decide, by decide, by decide⟩

/-- C8: for every strength `S`, validating the empty string returns a
well-formed report with all four presence flags false, `meetsLength`
false, and overall validity false. -/
theorem validate_empty_string (S : PasswordStrength) :
    validatePasswordStrength "" S =
      { isValid := false
        details := { hasLowercase := false, hasUppercase := false,
                     hasNumbers := false, hasSymbols := false,
                     meetsLength := false, strength := S } } := by
  cases S <;> rfl

/-- C9: for every input and every in-range draw stream, the Fisher–Yates
pass of `shuffleString` returns a permutation of its input: the same
multiset of characters, nothing dropped or duplicated. -/
theorem shuffleString_is_permutation (g : Nat → Nat → Nat)
    (hg : InRange g) (t : Nat) (str : List Char) :
    (shuffleString g t str).Perm str :=
  shuffleString_perm g hg t str

/-- Witness for `shuffleString_is_permutation` on `"abc"` with the
all-zero draw stream (the result is `"bca"`). -/
theorem shuffleString_is_permutation_witness :
    (shuffleString zeroDraws 0 ['a', 'b', 'c']).Perm ['a', 'b', 'c'] :=
  shuffleString_is_permutation zeroDraws zeroDraws_inRange 0 ['a', 'b', 'c']

/-- C10: for every `L ≥ 6` and every in-range draw stream, every character
of `generate(L, low)` is a lowercase letter, an uppercase letter, or a
digit — a Low-strength password never contains a symbol. -/
theorem low_password_alphabet (g : Nat → Nat → Nat) (hg : InRange g)
    (L : Nat) (h : 6 ≤ L) (p : String)
    (hp : generatePassword g ⟨L, .low⟩ = .ok p) :
    ∀ c ∈ p.toList,
      ('a' ≤ c ∧ c ≤ 'z') ∨ ('A' ≤ c ∧ c ≤ 'Z') ∨ ('0' ≤ c ∧ c ≤ '9') := by
  have h' : MIN_LENGTHS .low ≤ L := h
  have hperm := gen_perm g hg L .low h' p hp
  intro c hc
  have hc' := hperm.mem_iff.mp hc
  have hall : c ∈ allChars .low := by
    rcases List.mem_append.mp hc' with h1 | h2
    · exact requiredPart_subset_all g hg .low c h1
    · exact mem_fillPart g hg .low _ _ c h2
  have hchars : ∀ c ∈ allChars .low,
      ('a' ≤ c ∧ c ≤ 'z') ∨ ('A' ≤ c ∧ c ≤ 'Z') ∨ ('0' ≤ c ∧ c ≤ '9') := by
    decide
  exact hchars c hall

/-- Witness for `low_password_alphabet` with the all-zero draw stream,
`L = 6`, instantiated at the character `'A'` of the output. -/
theorem low_password_alphabet_witness :
    ('a' ≤ 'A' ∧ 'A' ≤ 'z') ∨ ('A' ≤ 'A' ∧ 'A' ≤ 'Z') ∨
      ('0' ≤ 'A' ∧ 'A' ≤ '9') :=
  low_password_alphabet zeroDraws zeroDraws_inRange 6 (by decide) "A0aaaa"
    rfl 'A' (by decide)
